import Mathlib

/-!
Verification of the contraction-clock core (src/src/App.jsx) against its
design document.  JavaScript numbers are modelled as exact rationals: every
arithmetic operation the core performs on times, durations and pixel widths
(addition, subtraction, multiplication, division by constants, max, min,
comparisons) is exact on the inputs the app produces, so the rational model
is faithful.  The amplitude curve uses Math.exp and is modelled over the
reals further below.
-/

namespace ContractionClock

-- ------------------------- constants from the source ------------------------

def Y_AXIS_W : ℚ := 44
def PX_PER_SEC : ℚ := 4
def MIN_REST_PX : ℚ := 32
def LEAD_PX : ℚ := 24
def FIVE_MIN_MS : ℚ := 5 * 60 * 1000
def ONE_MIN_MS : ℚ := 60 * 1000
def ONE_HOUR_MS : ℚ := 60 * 60 * 1000

-- ------------------------------- data model --------------------------------

/-- A finalized contraction record, as appended by toggleContraction.
The source field named end is called stop here (end is reserved in Lean). -/
structure Event where
  id : ℚ
  start : ℚ
  stop : ℚ
  duration : ℚ
  intensity : ℚ
  deriving DecidableEq

/-- Layout segment, the tagged union produced by the segment builder.
flat carries the raw rest milliseconds as its label (the source formats the
same value through formatDuration into a display string); bell carries the
finalized event it renders; activeBell is the in-progress bump, which the
source marks active: true with progress 1 and the live intensity. -/
inductive Segment where
  | flat (x widthPx : ℚ) (label : Option ℚ)
  | bell (x widthPx : ℚ) (c : Event)
  | activeBell (x widthPx : ℚ) (intensity : ℚ) (progress : ℚ)
  deriving DecidableEq

def Segment.widthPx : Segment → ℚ
  | .flat _ w _ => w
  | .bell _ w _ => w
  | .activeBell _ w _ _ => w

def Segment.isFlat : Segment → Bool
  | .flat _ _ _ => true
  | _ => false

def Segment.isBump : Segment → Bool
  | .flat _ _ _ => false
  | _ => true

-- ---------------------------- segment builder ------------------------------

/-- secPx(ms) = (ms / 1000) * PX_PER_SEC -/
def secPx (ms : ℚ) : ℚ := ms / 1000 * PX_PER_SEC

/-- The contractions.forEach loop of the segment builder: prev is the previous
event (none at the first iteration), cursor the running x position.  For each
event, when a predecessor exists a rest gap of width
max(MIN_REST_PX, secPx(start - prev.end)) is emitted first, then the bell of
width max(8, secPx(duration)); the cursor advances by every emitted width. -/
def eventSegs : Option Event → ℚ → List Event → List Segment × ℚ
  | _, cursor, [] => ([], cursor)
  | prev, cursor, c :: rest =>
    let gap : List Segment × ℚ :=
      match prev with
      | none => ([], cursor)
      | some p =>
        let restMs := c.start - p.stop
        let restPx := max MIN_REST_PX (secPx restMs)
        ([Segment.flat cursor restPx (some restMs)], cursor + restPx)
    let bellPx := max 8 (secPx c.duration)
    let tail := eventSegs (some c) (gap.2 + bellPx) rest
    (gap.1 ++ Segment.bell gap.2 bellPx c :: tail.1, tail.2)

/-- The if (activeStart) block of the segment builder: when an in-progress
event exists, a rest gap is emitted first when a prior event exists (using
activeStart - lastEvent.end, unlabeled), then the active bell of width
max(8, secPx(now - activeStart)) carrying the current intensity setting
divided by 10 and progress 1. -/
def activeSegs (contractions : List Event) (cursor : ℚ) (activeStart : Option ℚ)
    (now intensitySetting : ℚ) : List Segment × ℚ :=
  match activeStart with
  | none => ([], cursor)
  | some aStart =>
    let elapsedMs := now - aStart
    let gap : List Segment × ℚ :=
      match contractions.getLast? with
      | none => ([], cursor)
      | some lastC =>
        let restMs := aStart - lastC.stop
        let restPx := max MIN_REST_PX (secPx restMs)
        ([Segment.flat cursor restPx none], cursor + restPx)
    let activePx := max 8 (secPx elapsedMs)
    (gap.1 ++ [Segment.activeBell gap.2 activePx (intensitySetting / 10) 1],
      gap.2 + activePx)

/-- The full segment build of App.jsx: the cursor starts at Y_AXIS_W + 8; the
leading flat of width LEAD_PX is placed at cursor - LEAD_PX without advancing
the cursor; the events are laid out, then the in-progress part, then the
trailing flat of width LEAD_PX past which the cursor advances.  The second
component is the final cursor, i.e. svgWidth. -/
def buildSegments (contractions : List Event) (activeStart : Option ℚ)
    (now intensitySetting : ℚ) : List Segment × ℚ :=
  let ev := eventSegs none (Y_AXIS_W + 8) contractions
  let act := activeSegs contractions ev.2 activeStart now intensitySetting
  (Segment.flat (Y_AXIS_W + 8 - LEAD_PX) LEAD_PX none
      :: (ev.1 ++ act.1 ++ [Segment.flat act.2 LEAD_PX none]),
    act.2 + LEAD_PX)

/-- svgWidth: the final cursor value returned by the segment build. -/
def svgWidth (contractions : List Event) (activeStart : Option ℚ)
    (now intensitySetting : ℚ) : ℚ :=
  (buildSegments contractions activeStart now intensitySetting).2

/-- Sum of the widthPx of a list of segments. -/
def widthSum (segs : List Segment) : ℚ := (segs.map Segment.widthPx).sum

-- ------------------------- cursor accounting lemmas ------------------------

theorem eventSegs_widthSum (l : List Event) :
    ∀ prev cursor, (eventSegs prev cursor l).2
      = cursor + widthSum (eventSegs prev cursor l).1 := by
  induction l with
  | nil => intro prev cursor; simp [eventSegs, widthSum]
  | cons c rest ih =>
    intro prev cursor
    cases prev with
    | none =>
      simp only [eventSegs, widthSum, List.map_append, List.map_cons,
        List.sum_append, List.sum_cons]
      rw [ih]
      simp [widthSum, Segment.widthPx]
      ring
    | some p =>
      simp only [eventSegs, widthSum, List.map_append, List.map_cons,
        List.sum_append, List.sum_cons]
      rw [ih]
      simp [widthSum, Segment.widthPx]
      ring

theorem activeSegs_widthSum (cs : List Event) (cursor : ℚ) (activeStart : Option ℚ)
    (now intensitySetting : ℚ) :
    (activeSegs cs cursor activeStart now intensitySetting).2
      = cursor + widthSum (activeSegs cs cursor activeStart now intensitySetting).1 := by
  cases activeStart with
  | none => simp [activeSegs, widthSum]
  | some aStart =>
    cases hL : cs.getLast? with
    | none =>
      simp [activeSegs, hL, widthSum, Segment.widthPx]
    | some lastC =>
      simp [activeSegs, hL, widthSum, Segment.widthPx]
      ring

theorem eventSegs_cursor_le (l : List Event) :
    ∀ prev cursor, cursor ≤ (eventSegs prev cursor l).2 := by
  induction l with
  | nil => intro prev cursor; simp [eventSegs]
  | cons c rest ih =>
    intro prev cursor
    cases prev with
    | none =>
      simp only [eventSegs]
      refine le_trans ?_ (ih (some c) (cursor + max 8 (secPx c.duration)))
      have h8 : (8:ℚ) ≤ max 8 (secPx c.duration) := le_max_left _ _
      linarith
    | some p =>
      simp only [eventSegs]
      refine le_trans ?_
        (ih (some c) (cursor + max MIN_REST_PX (secPx (c.start - p.stop))
          + max 8 (secPx c.duration)))
      have h8 : (8:ℚ) ≤ max 8 (secPx c.duration) := le_max_left _ _
      have h32 : MIN_REST_PX ≤ max MIN_REST_PX (secPx (c.start - p.stop)) :=
        le_max_left _ _
      have h32' : (32:ℚ) ≤ max MIN_REST_PX (secPx (c.start - p.stop)) := by
        rw [MIN_REST_PX] at h32; exact h32
      linarith

theorem activeSegs_cursor_le (cs : List Event) (cursor : ℚ) (activeStart : Option ℚ)
    (now intensitySetting : ℚ) :
    cursor ≤ (activeSegs cs cursor activeStart now intensitySetting).2 := by
  cases activeStart with
  | none => simp [activeSegs]
  | some aStart =>
    have h8 : (8:ℚ) ≤ max 8 (secPx (now - aStart)) := le_max_left _ _
    cases hL : cs.getLast? with
    | none =>
      simp only [activeSegs, hL]
      linarith
    | some lastC =>
      have h32 : (32:ℚ) ≤ max MIN_REST_PX (secPx (aStart - lastC.stop)) := by
        simp only [MIN_REST_PX]
        exact le_max_left _ _
      simp only [activeSegs, hL]
      linarith

/-- svgWidth is never below 76 = 52 (initial cursor) + 24 (trailing gap):
all emitted widths are nonnegative and the cursor only moves right. -/
theorem svgWidth_lower_bound (cs : List Event) (activeStart : Option ℚ)
    (now intensitySetting : ℚ) :
    76 ≤ svgWidth cs activeStart now intensitySetting := by
  unfold svgWidth buildSegments
  have h1 : (Y_AXIS_W + 8 : ℚ) ≤ (eventSegs none (Y_AXIS_W + 8) cs).2 :=
    eventSegs_cursor_le cs none _
  have h2 := activeSegs_cursor_le cs (eventSegs none (Y_AXIS_W + 8) cs).2
    activeStart now intensitySetting
  have hY : Y_AXIS_W = (44:ℚ) := rfl
  simp only [LEAD_PX]
  linarith

-- --------------------------------- C1 --------------------------------------

/-- C1 counterexample: with no events and no in-progress event, the emitted
segments are the two fixed lead/trail gaps of width 24 each, so the widths sum
to 48 while svgWidth is 76 — the sum of all emitted widths does not equal the
returned total extent. -/
theorem widthSum_ne_svgWidth_on_empty :
    widthSum (buildSegments [] none 0 5).1 = 48 ∧
    svgWidth [] none 0 5 = 76 ∧
    widthSum (buildSegments [] none 0 5).1 ≠ svgWidth [] none 0 5 := by
  refine ⟨?_, ?_, ?_⟩ <;>
    norm_num [widthSum, buildSegments, activeSegs, svgWidth, eventSegs,
      Segment.widthPx, Y_AXIS_W, LEAD_PX]

/-- C1 (amended): the sum of the widthPx of all emitted segments equals the
returned total extent (svgWidth) minus the initial cursor offset
Y_AXIS_W + 8 = 52 plus the leading-gap width LEAD_PX = 24, i.e.
svgWidth - 28: the leading gap is positioned before the initial cursor and
does not advance it, so its width is the only emitted width not accounted for
by cursor movement, and the cursor starts at 52, not 0. -/
theorem widthSum_eq_svgWidth_sub (cs : List Event) (activeStart : Option ℚ)
    (now intensitySetting : ℚ) :
    widthSum (buildSegments cs activeStart now intensitySetting).1
      = svgWidth cs activeStart now intensitySetting - 28 := by
  unfold svgWidth buildSegments
  simp only [widthSum, List.map_cons, List.map_append, List.sum_cons,
    List.sum_append, List.map_nil, List.sum_nil, List.sum_singleton,
    List.map_singleton]
  have h1 := eventSegs_widthSum cs none (Y_AXIS_W + 8)
  have h2 := activeSegs_widthSum cs (eventSegs none (Y_AXIS_W + 8) cs).2
    activeStart now intensitySetting
  simp only [widthSum] at h1 h2
  simp only [Segment.widthPx, Y_AXIS_W, LEAD_PX] at *
  linarith

-- --------------------------------- C7 --------------------------------------

theorem eventSegs_width_bounds (l : List Event) :
    ∀ prev cursor s, s ∈ (eventSegs prev cursor l).1 →
      (s.isFlat = true → MIN_REST_PX ≤ s.widthPx) ∧
      (s.isBump = true → 8 ≤ s.widthPx) := by
  induction l with
  | nil => intro prev cursor s hs; simp [eventSegs] at hs
  | cons c rest ih =>
    intro prev cursor s hs
    cases prev with
    | none =>
      simp only [eventSegs, List.nil_append, List.mem_cons] at hs
      rcases hs with rfl | hs
      · exact ⟨fun h => by simp [Segment.isFlat] at h,
          fun _ => by simpa [Segment.widthPx] using le_max_left 8 (secPx c.duration)⟩
      · exact ih (some c) _ s hs
    | some p =>
      simp only [eventSegs, List.cons_append, List.singleton_append,
        List.nil_append, List.mem_cons] at hs
      rcases hs with rfl | hs
      · exact ⟨fun _ => by
            simpa [Segment.widthPx] using
              le_max_left MIN_REST_PX (secPx (c.start - p.stop)),
          fun h => by simp [Segment.isBump] at h⟩
      rcases hs with rfl | hs
      · exact ⟨fun h => by simp [Segment.isFlat] at h,
          fun _ => by simpa [Segment.widthPx] using le_max_left 8 (secPx c.duration)⟩
      · exact ih (some c) _ s hs

theorem activeSegs_width_bounds (cs : List Event) (cursor : ℚ)
    (activeStart : Option ℚ) (now intensitySetting : ℚ) :
    ∀ s ∈ (activeSegs cs cursor activeStart now intensitySetting).1,
      (s.isFlat = true → MIN_REST_PX ≤ s.widthPx) ∧
      (s.isBump = true → 8 ≤ s.widthPx) := by
  intro s hs
  cases activeStart with
  | none => simp [activeSegs] at hs
  | some aStart =>
    cases hL : cs.getLast? with
    | none =>
      simp only [activeSegs, hL, List.nil_append, List.mem_singleton] at hs
      subst hs
      exact ⟨fun h => by simp [Segment.isFlat] at h,
        fun _ => by simpa [Segment.widthPx] using le_max_left 8 (secPx (now - aStart))⟩
    | some lastC =>
      simp only [activeSegs, hL, List.singleton_append, List.mem_cons,
        List.not_mem_nil, or_false] at hs
      rcases hs with rfl | rfl
      · exact ⟨fun _ => by
            simpa [Segment.widthPx] using
              le_max_left MIN_REST_PX (secPx (aStart - lastC.stop)),
          fun h => by simp [Segment.isBump] at h⟩
      · exact ⟨fun h => by simp [Segment.isFlat] at h,
          fun _ => by simpa [Segment.widthPx] using le_max_left 8 (secPx (now - aStart))⟩

/-- C7 counterexample: the leading gap segment emitted for an empty history is
a Gap of width LEAD_PX = 24 < 32 = minGapPx, so it is not true that every Gap
segment in the emitted list has width at least minGapPx. -/
theorem lead_gap_below_minGap :
    (buildSegments [] none 0 5).1
      = [Segment.flat 28 24 none, Segment.flat 52 24 none] ∧
    ¬ (∀ s ∈ (buildSegments [] none 0 5).1,
        s.isFlat = true → MIN_REST_PX ≤ s.widthPx) := by
  have hlist : (buildSegments [] none 0 5).1
      = [Segment.flat 28 24 none, Segment.flat 52 24 none] := by
    norm_num [buildSegments, activeSegs, eventSegs, Y_AXIS_W, LEAD_PX]
  refine ⟨hlist, fun h => ?_⟩
  have := h (Segment.flat 28 24 none) (by rw [hlist]; exact List.mem_cons_self _ _)
    (by rfl)
  rw [MIN_REST_PX] at this
  simp only [Segment.widthPx] at this
  linarith

/-- C7 (amended): every Bump segment (completed or in-progress) in the emitted
list has width at least minBumpPx = 8, and every Gap segment other than the
fixed-width leading and trailing margins — which always have width exactly
LEAD_PX = 24 — has width at least minGapPx = 32, even when the underlying
time gap is zero or negative. -/
theorem segment_width_bounds (cs : List Event) (activeStart : Option ℚ)
    (now intensitySetting : ℚ) :
    (∀ s ∈ (buildSegments cs activeStart now intensitySetting).1,
        s.isBump = true → 8 ≤ s.widthPx) ∧
    (∃ mid lastX,
      (buildSegments cs activeStart now intensitySetting).1
        = Segment.flat (Y_AXIS_W + 8 - LEAD_PX) LEAD_PX none
            :: (mid ++ [Segment.flat lastX LEAD_PX none]) ∧
      ∀ s ∈ mid, s.isFlat = true → MIN_REST_PX ≤ s.widthPx) := by
  constructor
  · intro s hs hb
    unfold buildSegments at hs
    simp only [List.mem_cons, List.mem_append, List.mem_singleton,
      List.not_mem_nil, or_false] at hs
    rcases hs with rfl | (hs | hs) | rfl
    · simp [Segment.isBump] at hb
    · exact (eventSegs_width_bounds cs none _ s hs).2 hb
    · exact (activeSegs_width_bounds cs _ activeStart now intensitySetting s hs).2 hb
    · simp [Segment.isBump] at hb
  · refine ⟨(eventSegs none (Y_AXIS_W + 8) cs).1
        ++ (activeSegs cs (eventSegs none (Y_AXIS_W + 8) cs).2
            activeStart now intensitySetting).1,
      (activeSegs cs (eventSegs none (Y_AXIS_W + 8) cs).2
          activeStart now intensitySetting).2, ?_, ?_⟩
    · simp [buildSegments, List.append_assoc]
    · intro s hs hf
      simp only [List.mem_append] at hs
      rcases hs with hs | hs
      · exact (eventSegs_width_bounds cs none _ s hs).1 hf
      · exact (activeSegs_width_bounds cs _ activeStart now intensitySetting s hs).1 hf

theorem segment_width_bounds_witness :
    Segment.activeBell 52 8 (5/10) 1 ∈ (buildSegments [] (some 0) 2000 5).1 ∧
    (8:ℚ) ≤ (Segment.activeBell 52 8 (5/10) 1).widthPx := by
  have hmem : Segment.activeBell 52 8 (5/10) 1 ∈ (buildSegments [] (some 0) 2000 5).1 := by
    norm_num [buildSegments, activeSegs, eventSegs, Y_AXIS_W, LEAD_PX, secPx,
      PX_PER_SEC]
  exact ⟨hmem, (segment_width_bounds [] (some 0) 2000 5).1 _ hmem (by rfl)⟩

-- ----------------------------- streak evaluator ----------------------------

/-- The backward walk of the 511-rule streak detector (the for loop of
App.jsx): succ is the most recently included contraction, the list holds the
earlier contractions most-recent-first (the loop index running down).  An
earlier contraction p is included exactly while p lasts at least one minute
and the start-to-start interval to its successor is at most five minutes; the
walk stops at the first failure or at the beginning of history and returns
the earliest contraction still included. -/
def walkBack (succ : Event) : List Event → Event
  | [] => succ
  | p :: rest =>
    if ONE_MIN_MS ≤ p.duration ∧ succ.start - p.start ≤ FIVE_MIN_MS then
      walkBack p rest
    else succ

/-- qualifyingStreakStart of App.jsx: none for an empty history or when the
most recent contraction lasts under one minute; otherwise the start of the
contraction found by the backward walk. -/
def qualifyingStreakStart (contractions : List Event) : Option ℚ :=
  match contractions.reverse with
  | [] => none
  | lastC :: restRev =>
    if ONE_MIN_MS ≤ lastC.duration then some (walkBack lastC restRev).start
    else none

/-- One backward step of the walk qualifies: the earlier event b lasts at
least one minute and its successor a started at most five minutes after b. -/
def stepOk (a b : Event) : Prop :=
  ONE_MIN_MS ≤ b.duration ∧ a.start - b.start ≤ FIVE_MIN_MS

theorem walkBack_decomp (rest : List Event) : ∀ succ : Event,
    ∃ kept rem, rest = kept ++ rem ∧
      walkBack succ rest = kept.getLastD succ ∧
      List.Chain stepOk succ kept ∧
      (rem = [] ∨ ∃ q, rem.head? = some q ∧ ¬ stepOk (walkBack succ rest) q) := by
  induction rest with
  | nil =>
    intro succ
    exact ⟨[], [], rfl, rfl, List.Chain.nil, Or.inl rfl⟩
  | cons p rest ih =>
    intro succ
    by_cases h : ONE_MIN_MS ≤ p.duration ∧ succ.start - p.start ≤ FIVE_MIN_MS
    · have hw : walkBack succ (p :: rest) = walkBack p rest := by
        simp only [walkBack]
        rw [if_pos h]
      obtain ⟨kept, rem, hre, hwb, hch, hj⟩ := ih p
      refine ⟨p :: kept, rem, by simp [hre], ?_, ?_, ?_⟩
      · rw [hw, hwb, List.getLastD_cons]
      · exact List.Chain.cons h hch
      · rw [hw]; exact hj
    · have hw : walkBack succ (p :: rest) = succ := by
        simp only [walkBack]
        rw [if_neg h]
      refine ⟨[], p :: rest, rfl, hw, List.Chain.nil, Or.inr ⟨p, rfl, ?_⟩⟩
      rw [hw]; exact h

theorem chain_mem_of_rel {R : Event → Event → Prop} {P : Event → Prop}
    (hRP : ∀ a b, R a b → P b) :
    ∀ (a : Event) (l : List Event), List.Chain R a l → ∀ e ∈ l, P e := by
  intro a l
  induction l generalizing a with
  | nil => intro _ e he; simp at he
  | cons b t ih =>
    intro hch e he
    rcases List.chain_cons.mp hch with ⟨hab, hbt⟩
    rcases List.mem_cons.mp he with rfl | he
    · exact hRP _ _ hab
    · exact ih b hbt e he

/-- C2: for every non-empty history, the streak evaluator returns none when
the most recent event lasts under one minute (regardless of now); otherwise
the history splits as pre ++ streak where the most recent events form the
streak: every event in the streak lasts at least one minute, each consecutive
start-to-start interval within it is at most five minutes, the streak cannot
be extended (either pre is empty or its last event fails the step condition
against the earliest streak member), and qualifyingStart is the start of the
earliest event of the streak. -/
theorem qualifyingStreakStart_spec (cs : List Event) (lastC : Event)
    (hlast : cs.getLast? = some lastC) :
    (lastC.duration < ONE_MIN_MS → qualifyingStreakStart cs = none) ∧
    (ONE_MIN_MS ≤ lastC.duration →
      ∃ pre streak hd,
        cs = pre ++ streak ∧
        streak.head? = some hd ∧
        qualifyingStreakStart cs = some hd.start ∧
        (∀ e ∈ streak, ONE_MIN_MS ≤ e.duration) ∧
        List.Chain' (fun a b => b.start - a.start ≤ FIVE_MIN_MS) streak ∧
        (pre = [] ∨ ∃ p, pre.getLast? = some p ∧ ¬ stepOk hd p)) := by
  have hrev : cs.reverse.head? = some lastC := by
    rw [List.head?_reverse]; exact hlast
  obtain ⟨restRev, hcs⟩ : ∃ restRev, cs.reverse = lastC :: restRev := by
    cases h : cs.reverse with
    | nil => rw [h] at hrev; simp at hrev
    | cons a l => rw [h] at hrev; simp at hrev; exact ⟨l, by rw [hrev]⟩
  constructor
  · intro hdur
    simp only [qualifyingStreakStart, hcs]
    rw [if_neg (not_le.mpr hdur)]
  · intro hdur
    obtain ⟨kept, rem, hre, hwb, hch, hj⟩ := walkBack_decomp restRev lastC
    have hq : qualifyingStreakStart cs = some (walkBack lastC restRev).start := by
      simp only [qualifyingStreakStart, hcs]
      rw [if_pos hdur]
    refine ⟨rem.reverse, (lastC :: kept).reverse, walkBack lastC restRev,
      ?_, ?_, hq, ?_, ?_, ?_⟩
    · have hcc : cs = cs.reverse.reverse := (List.reverse_reverse cs).symm
      rw [hcc, hcs, hre]
      simp [List.reverse_append, List.reverse_cons, List.append_assoc]
    · rw [hwb, List.head?_reverse, List.getLast?_cons, List.getLastD_eq_getLast?]
    · intro e he
      rw [List.mem_reverse, List.mem_cons] at he
      rcases he with rfl | he
      · exact hdur
      · exact chain_mem_of_rel (fun a b hab => hab.1) lastC kept hch e he
    · rw [List.chain'_reverse]
      exact List.Chain.imp (fun a b hab => hab.2) hch
    · rcases hj with rfl | ⟨q, hqh, hnq⟩
      · exact Or.inl rfl
      · refine Or.inr ⟨q, ?_, hnq⟩
        rw [List.getLast?_reverse]
        exact hqh

/-- A qualifying one-minute contraction used to instantiate theorems. -/
def sampleStreakEvent : Event := ⟨1, 0, 60000, 60000, 1/2⟩

theorem qualifyingStreakStart_spec_witness :
    [sampleStreakEvent].getLast? = some sampleStreakEvent ∧
    ((sampleStreakEvent.duration < ONE_MIN_MS →
        qualifyingStreakStart [sampleStreakEvent] = none) ∧
     (ONE_MIN_MS ≤ sampleStreakEvent.duration →
      ∃ pre streak hd,
        [sampleStreakEvent] = pre ++ streak ∧
        streak.head? = some hd ∧
        qualifyingStreakStart [sampleStreakEvent] = some hd.start ∧
        (∀ e ∈ streak, ONE_MIN_MS ≤ e.duration) ∧
        List.Chain' (fun a b => b.start - a.start ≤ FIVE_MIN_MS) streak ∧
        (pre = [] ∨ ∃ p, pre.getLast? = some p ∧ ¬ stepOk hd p))) :=
  ⟨rfl, qualifyingStreakStart_spec [sampleStreakEvent] sampleStreakEvent rfl⟩

-- --------------------------------- C3 --------------------------------------

/-- streakDuration of App.jsx: now - qualifyingStreakStart while a streak
exists, 0 otherwise. -/
def streakDuration (cs : List Event) (now : ℚ) : ℚ :=
  match qualifyingStreakStart cs with
  | some q => now - q
  | none => 0

/-- rule511Met of App.jsx: the streak has been running for at least an hour. -/
def rule511Met (cs : List Event) (now : ℚ) : Bool :=
  decide (ONE_HOUR_MS ≤ streakDuration cs now)

/-- The four synthetic events of the spec scenario: durationMs = 60000 each,
consecutive starts exactly 300000 ms apart, ids and intensities arbitrary. -/
def fourEvents : List Event :=
  [⟨0, 0, 60000, 60000, 1/2⟩, ⟨300000, 300000, 360000, 60000, 1/2⟩,
   ⟨600000, 600000, 660000, 60000, 1/2⟩, ⟨900000, 900000, 960000, 60000, 1/2⟩]

/-- C3: streakDurationMs equals now - qualifyingStart when a streak exists and
0 otherwise, and thresholdMet holds iff streakDurationMs is at least one hour
(3600000 ms); for the four synthetic events with durationMs 60000 and starts
300000 ms apart, qualifyingStart = 0 and thresholdMet is false at
now = qualifyingStart + 3599999 but true at now = qualifyingStart + 3600000. -/
theorem streakDuration_rule511_spec :
    (∀ cs now q, qualifyingStreakStart cs = some q →
      streakDuration cs now = now - q) ∧
    (∀ cs now, qualifyingStreakStart cs = none → streakDuration cs now = 0) ∧
    (∀ cs now, rule511Met cs now = true ↔ ONE_HOUR_MS ≤ streakDuration cs now) ∧
    qualifyingStreakStart fourEvents = some 0 ∧
    rule511Met fourEvents (0 + 3599999) = false ∧
    rule511Met fourEvents (0 + 3600000) = true := by
  have hq : qualifyingStreakStart fourEvents = some 0 := by
    norm_num [qualifyingStreakStart, walkBack, fourEvents, ONE_MIN_MS,
      FIVE_MIN_MS]
  refine ⟨?_, ?_, ?_, hq, ?_, ?_⟩
  · intro cs now q h; simp [streakDuration, h]
  · intro cs now h; simp [streakDuration, h]
  · intro cs now; simp [rule511Met]
  · norm_num [rule511Met, streakDuration, hq, ONE_HOUR_MS]
  · norm_num [rule511Met, streakDuration, hq, ONE_HOUR_MS]

theorem streakDuration_rule511_spec_witness :
    qualifyingStreakStart fourEvents = some 0 ∧
    streakDuration fourEvents 5 = 5 - 0 :=
  ⟨streakDuration_rule511_spec.2.2.2.1,
    streakDuration_rule511_spec.1 fourEvents 5 0
      streakDuration_rule511_spec.2.2.2.1⟩

-- ----------------------- begin/end command handling ------------------------

/-- The React state that toggleContraction reads and writes. -/
structure AppState where
  contractions : List Event
  activeStart : Option ℚ
  intensity : ℚ
  now : ℚ

/-- toggleContraction of App.jsx.  dateNow is the Date.now() sampled on a
begin; an end uses the state value now.  Ending with duration < 1000 silently
discards the in-progress event; otherwise the finalized event is appended
with id = start = activeStart, end = now, duration = now - activeStart and
intensity = (setting / 10). -/
def toggleContraction (s : AppState) (dateNow : ℚ) : AppState :=
  match s.activeStart with
  | none => ⟨s.contractions, some dateNow, s.intensity, s.now⟩
  | some aStart =>
    let duration := s.now - aStart
    if duration < 1000 then ⟨s.contractions, none, s.intensity, s.now⟩
    else ⟨s.contractions ++ [⟨aStart, aStart, s.now, duration, s.intensity / 10⟩],
      none, s.intensity, s.now⟩

-- --------------------------------- C4 --------------------------------------

/-- C4: ending an in-progress event with elapsed time under 1000 ms appends
no Event and leaves the history unchanged, clearing the InProgressEvent
silently; ending at exactly 1000 ms appends exactly one Event whose
durationMs is 1000 (and also clears the InProgressEvent). -/
theorem toggleContraction_end_spec (s : AppState) (aStart dateNow : ℚ)
    (ha : s.activeStart = some aStart) :
    (s.now - aStart < 1000 →
      (toggleContraction s dateNow).contractions = s.contractions ∧
      (toggleContraction s dateNow).activeStart = none) ∧
    (s.now - aStart = 1000 →
      (toggleContraction s dateNow).contractions
        = s.contractions ++ [⟨aStart, aStart, s.now, 1000, s.intensity / 10⟩] ∧
      (toggleContraction s dateNow).contractions.length
        = s.contractions.length + 1 ∧
      (toggleContraction s dateNow).activeStart = none) := by
  constructor
  · intro hlt
    simp only [toggleContraction, ha]
    rw [if_pos hlt]
    exact ⟨rfl, rfl⟩
  · intro heq
    have hnlt : ¬ (s.now - aStart < 1000) := by rw [heq]; norm_num
    simp only [toggleContraction, ha]
    rw [if_neg hnlt]
    refine ⟨by rw [heq], by simp, rfl⟩

theorem toggleContraction_end_spec_witness :
    (AppState.mk [] (some 0) 5 500).activeStart = some 0 ∧
    (AppState.mk [] (some 0) 5 500).now - 0 < 1000 ∧
    (toggleContraction (AppState.mk [] (some 0) 5 500) 7).contractions = [] ∧
    (toggleContraction (AppState.mk [] (some 0) 5 500) 7).activeStart = none := by
  refine ⟨rfl, by norm_num, ?_⟩
  have h := (toggleContraction_end_spec (AppState.mk [] (some 0) 5 500) 0 7 rfl).1
    (by norm_num)
  exact h

-- ------------------------------ viewport pan -------------------------------

/-- panX of App.jsx: in live-scroll mode the data layer is shifted by
max(-(svgWidth - Y_AXIS_W), min(0, effectiveContainerWidth - svgWidth)),
where effectiveContainerWidth falls back to svgWidth while the container is
unmeasured (width 0); otherwise no shift. -/
def panX (svgW containerWidth : ℚ) (liveScroll : Bool) : ℚ :=
  let effectiveContainerWidth := if 0 < containerWidth then containerWidth else svgW
  if liveScroll then
    max (-(svgW - Y_AXIS_W)) (min 0 (effectiveContainerWidth - svgW))
  else 0

-- --------------------------------- C6 --------------------------------------

/-- C6: for the total extent produced by the segment builder, follow mode
pans by clamp(viewportWidth - totalExtent, -(totalExtent - axisWidth), 0)
once the viewport is measured; the offset is always at most 0 and at least
-(totalExtent - axisWidth); it is 0 whenever totalExtent fits in the
viewport; with follow off the offset is 0; and an unmeasured viewport
(width 0) substitutes totalExtent so the offset is 0. -/
theorem panX_spec (cs : List Event) (activeStart : Option ℚ)
    (now intensitySetting cw : ℚ) :
    (0 < cw → panX (svgWidth cs activeStart now intensitySetting) cw true
      = max (-(svgWidth cs activeStart now intensitySetting - Y_AXIS_W))
          (min 0 (cw - svgWidth cs activeStart now intensitySetting))) ∧
    (panX (svgWidth cs activeStart now intensitySetting) cw true ≤ 0 ∧
      -(svgWidth cs activeStart now intensitySetting - Y_AXIS_W)
        ≤ panX (svgWidth cs activeStart now intensitySetting) cw true) ∧
    (svgWidth cs activeStart now intensitySetting ≤ cw →
      panX (svgWidth cs activeStart now intensitySetting) cw true = 0) ∧
    (panX (svgWidth cs activeStart now intensitySetting) cw false = 0) ∧
    (cw = 0 → panX (svgWidth cs activeStart now intensitySetting) cw true = 0) := by
  have hsvg := svgWidth_lower_bound cs activeStart now intensitySetting
  have hY : Y_AXIS_W = (44:ℚ) := rfl
  have hneg : -(svgWidth cs activeStart now intensitySetting - Y_AXIS_W) ≤ 0 := by
    linarith
  refine ⟨?_, ⟨?_, ?_⟩, ?_, ?_, ?_⟩
  · intro hcw
    simp only [panX, if_pos hcw, if_true]
  · simp only [panX, if_true]
    by_cases hcw : 0 < cw
    · rw [if_pos hcw]
      exact max_le hneg (min_le_left _ _)
    · rw [if_neg hcw]
      exact max_le hneg (min_le_left _ _)
  · simp only [panX, if_true]
    by_cases hcw : 0 < cw
    · rw [if_pos hcw]; exact le_max_left _ _
    · rw [if_neg hcw]; exact le_max_left _ _
  · intro hfit
    have hcw : 0 < cw := by linarith
    have hmin : min 0 (cw - svgWidth cs activeStart now intensitySetting) = 0 :=
      min_eq_left (by linarith)
    simp only [panX, if_pos hcw, if_true, hmin]
    exact max_eq_right hneg
  · simp [panX]
  · intro hcw0
    subst hcw0
    have h0 : ¬ ((0:ℚ) < 0) := by norm_num
    simp only [panX, if_neg h0, if_true, sub_self, min_self]
    exact max_eq_right hneg

theorem panX_spec_witness :
    (0:ℚ) < 100 ∧
    panX (svgWidth [] none 0 5) 100 true
      = max (-(svgWidth [] none 0 5 - Y_AXIS_W)) (min 0 (100 - svgWidth [] none 0 5)) :=
  ⟨by norm_num, (panX_spec [] none 0 5 100).1 (by norm_num)⟩

-- --------------------------- session aggregates ----------------------------

/-- allIntervals of App.jsx: with at least two contractions, the list of
consecutive start-to-start differences over the whole history (the source
maps contractions.slice(1) against the original by index); otherwise empty. -/
def allIntervals (cs : List Event) : List ℚ :=
  if 2 ≤ cs.length then (cs.zip cs.tail).map (fun p => p.2.start - p.1.start)
  else []

/-- avgRecentInterval of App.jsx: the mean of allIntervals, null when it is
empty. -/
def avgRecentInterval (cs : List Event) : Option ℚ :=
  if (allIntervals cs).length ≠ 0 then
    some ((allIntervals cs).sum / ((allIntervals cs).length : ℚ))
  else none

/-- avgRecentDuration of App.jsx: the mean of all durations, null when the
history is empty. -/
def avgRecentDuration (cs : List Event) : Option ℚ :=
  if cs.length ≠ 0 then some ((cs.map Event.duration).sum / (cs.length : ℚ))
  else none

/-- Default used only for in-range index access in specification sums. -/
def dummyEvent : Event := ⟨0, 0, 0, 0, 0⟩

theorem consecutive_sum (cs : List Event) :
    ((cs.zip cs.tail).map (fun p => p.2.start - p.1.start)).sum
      = ∑ j ∈ Finset.range (cs.length - 1),
          ((cs.getD (j+1) dummyEvent).start - (cs.getD j dummyEvent).start) := by
  induction cs with
  | nil => simp
  | cons a t ih =>
    cases t with
    | nil => simp
    | cons b t2 =>
      simp only [List.tail_cons, List.zip_cons_cons, List.map_cons,
        List.sum_cons] at *
      rw [ih]
      have hlen : (a :: b :: t2).length - 1 = t2.length + 1 := by simp
      have hlen2 : (b :: t2).length - 1 = t2.length := by simp
      rw [hlen, hlen2, Finset.sum_range_succ']
      simp only [List.getD_cons_succ, List.getD_cons_zero]
      ring

theorem durations_sum (cs : List Event) :
    (cs.map Event.duration).sum
      = ∑ j ∈ Finset.range cs.length, (cs.getD j dummyEvent).duration := by
  induction cs with
  | nil => simp
  | cons a t ih =>
    simp only [List.map_cons, List.sum_cons, List.length_cons]
    rw [ih, Finset.sum_range_succ']
    simp only [List.getD_cons_succ, List.getD_cons_zero]
    ring

-- --------------------------------- C8 --------------------------------------

/-- C8: the session-wide aggregates range over all Events regardless of the
streak: avgIntervalMs is the mean of the consecutive start differences
start[j+1] - start[j] over the whole history and null with fewer than two
Events; avgDurationMs is the mean of all durations and null with no Events. -/
theorem session_aggregates_spec (cs : List Event) :
    (cs.length < 2 → avgRecentInterval cs = none) ∧
    (2 ≤ cs.length → avgRecentInterval cs
      = some ((∑ j ∈ Finset.range (cs.length - 1),
          ((cs.getD (j+1) dummyEvent).start - (cs.getD j dummyEvent).start))
            / ((cs.length - 1 : ℕ) : ℚ))) ∧
    (cs.length = 0 → avgRecentDuration cs = none) ∧
    (cs.length ≠ 0 → avgRecentDuration cs
      = some ((∑ j ∈ Finset.range cs.length, (cs.getD j dummyEvent).duration)
          / (cs.length : ℚ))) := by
  refine ⟨?_, ?_, ?_, ?_⟩
  · intro h
    have h2 : ¬ (2 ≤ cs.length) := by omega
    simp [avgRecentInterval, allIntervals, h2]
  · intro h
    have hA : allIntervals cs
        = (cs.zip cs.tail).map (fun p => p.2.start - p.1.start) := by
      simp [allIntervals, h]
    have hlen : ((cs.zip cs.tail).map (fun p => p.2.start - p.1.start)).length
        = cs.length - 1 := by
      simp only [List.length_map, List.length_zip, List.length_tail]
      omega
    have hne : (allIntervals cs).length ≠ 0 := by
      rw [hA, hlen]; omega
    simp only [avgRecentInterval, if_pos hne]
    rw [hA, consecutive_sum, hlen]
  · intro h; simp [avgRecentDuration, h]
  · intro h
    simp only [avgRecentDuration, if_pos h]
    rw [durations_sum]

/-- A two-event history used to instantiate the aggregate theorem. -/
def samplePair : List Event :=
  [⟨1, 0, 10000, 10000, 1/2⟩, ⟨2, 60000, 61000, 1000, 1/2⟩]

theorem session_aggregates_spec_witness :
    2 ≤ samplePair.length ∧
    avgRecentInterval samplePair
      = some ((∑ j ∈ Finset.range (samplePair.length - 1),
          ((samplePair.getD (j+1) dummyEvent).start
            - (samplePair.getD j dummyEvent).start))
            / ((samplePair.length - 1 : ℕ) : ℚ)) :=
  ⟨by norm_num [samplePair],
    (session_aggregates_spec samplePair).2.1 (by norm_num [samplePair])⟩

-- ------------------------------ persisted load -----------------------------

/-- A JavaScript JSON value, as produced by a JSON parser. -/
inductive JsValue where
  | null
  | bool (b : Bool)
  | num (q : ℚ)
  | str (s : String)
  | arr (elems : List JsValue)
  | obj (fields : List (String × JsValue))

/-- JavaScript truthiness of a JSON value. -/
def JsValue.truthy : JsValue → Bool
  | .null => false
  | .bool b => b
  | .num q => decide (q ≠ 0)
  | .str s => decide (s ≠ "")
  | .arr _ => true
  | .obj _ => true

/-- Modelled from the spec: localStorage.getItem and JSON.parse are external
collaborators (the key-value persistence mechanism is out of scope,
interfaces only), so the parser is an arbitrary total function that may fail
the way JSON.parse throws.  The initializer of the contractions state is
try JSON.parse(getItem(key)) catch-to-empty, then falsy-to-empty: an absent
item (getItem null) makes JSON.parse read the coerced string "null", which
yields the falsy JSON null, hence the empty session. -/
def loadSession (stored : Option String)
    (parse : String → Except String JsValue) : JsValue :=
  match stored with
  | none => JsValue.arr []
  | some s =>
    match parse s with
    | Except.error _ => JsValue.arr []
    | Except.ok v => if v.truthy then v else JsValue.arr []

-- --------------------------------- C9 --------------------------------------

/-- C9: loading persisted state that is absent, unparseable, or parses to a
falsy value yields the empty history, and the load is a total function of
the stored value — no error escapes. -/
theorem loadSession_defensive (parse : String → Except String JsValue) :
    (loadSession none parse = JsValue.arr []) ∧
    (∀ s msg, parse s = Except.error msg →
      loadSession (some s) parse = JsValue.arr []) ∧
    (∀ s v, parse s = Except.ok v → v.truthy = false →
      loadSession (some s) parse = JsValue.arr []) ∧
    (∀ stored, ∃ v, loadSession stored parse = v) := by
  refine ⟨rfl, ?_, ?_, fun stored => ⟨_, rfl⟩⟩
  · intro s msg h
    simp [loadSession, h]
  · intro s v h ht
    simp [loadSession, h, ht]

/-- A parser that always throws, standing for JSON.parse on malformed text. -/
def badParse : String → Except String JsValue :=
  fun _ => Except.error "SyntaxError"

theorem loadSession_defensive_witness :
    badParse "not json" = Except.error "SyntaxError" ∧
    loadSession (some "not json") badParse = JsValue.arr [] :=
  ⟨rfl, (loadSession_defensive badParse).2.1 "not json" "SyntaxError" rfl⟩

-- --------------------------------- C10 -------------------------------------

theorem eventSegs_no_activeBell (l : List Event) :
    ∀ prev cursor x w inten p,
      Segment.activeBell x w inten p ∉ (eventSegs prev cursor l).1 := by
  induction l with
  | nil => intro prev cursor x w inten p h; simp [eventSegs] at h
  | cons c rest ih =>
    intro prev cursor x w inten p h
    cases prev with
    | none =>
      simp only [eventSegs, List.nil_append, List.mem_cons] at h
      rcases h with h | h
      · exact Segment.noConfusion h
      · exact ih (some c) _ x w inten p h
    | some q =>
      simp only [eventSegs, List.cons_append, List.singleton_append,
        List.nil_append, List.mem_cons] at h
      rcases h with h | h | h
      · exact Segment.noConfusion h
      · exact Segment.noConfusion h
      · exact ih (some c) _ x w inten p h

/-- C10: a finalized Event stores intensity = setting / 10, and the active
in-progress Bump carries the same setting / 10; with the slider setting in
1..10 every such intensity lies in [1/10, 1] and is never 0 — strictly inside
the declared [0, 1] range. -/
theorem intensity_range_spec (s : AppState) (aStart dateNow : ℚ)
    (h1 : 1 ≤ s.intensity) (h10 : s.intensity ≤ 10)
    (ha : s.activeStart = some aStart)
    (hd : ¬ (s.now - aStart < 1000)) :
    ((toggleContraction s dateNow).contractions
      = s.contractions
        ++ [⟨aStart, aStart, s.now, s.now - aStart, s.intensity / 10⟩]) ∧
    (1/10 ≤ s.intensity / 10 ∧ s.intensity / 10 ≤ 1 ∧ s.intensity / 10 ≠ 0) ∧
    (∀ cs a now x w inten p,
      Segment.activeBell x w inten p
          ∈ (buildSegments cs (some a) now s.intensity).1 →
        inten = s.intensity / 10) := by
  refine ⟨?_, ⟨by linarith, by linarith, ?_⟩, ?_⟩
  · simp only [toggleContraction, ha]
    rw [if_neg hd]
  · have : (0:ℚ) < s.intensity / 10 := by linarith
    exact ne_of_gt this
  · intro cs a now x w inten p hmem
    unfold buildSegments at hmem
    simp only [List.mem_cons, List.mem_append, List.mem_singleton,
      List.not_mem_nil, or_false] at hmem
    rcases hmem with h | (h | h) | h
    · exact absurd h (fun hh => Segment.noConfusion hh)
    · exact absurd h (eventSegs_no_activeBell cs none _ x w inten p)
    · cases hL : cs.getLast? with
      | none =>
        simp only [activeSegs, hL, List.nil_append, List.mem_singleton] at h
        injection h with hx hw hi hp
      | some lastC =>
        simp only [activeSegs, hL, List.singleton_append, List.mem_cons,
          List.not_mem_nil, or_false] at h
        rcases h with h | h
        · exact absurd h (fun hh => Segment.noConfusion hh)
        · injection h with hx hw hi hp
    · exact absurd h (fun hh => Segment.noConfusion hh)

theorem intensity_range_spec_witness :
    (1:ℚ) ≤ 5 ∧ (5:ℚ) ≤ 10 ∧
    (toggleContraction (AppState.mk [] (some 0) 5 2000) 9).contractions
      = [] ++ [⟨0, 0, 2000, 2000 - 0, 5 / 10⟩] :=
  ⟨by norm_num, by norm_num,
    (intensity_range_spec (AppState.mk [] (some 0) 5 2000) 0 9
      (by norm_num) (by norm_num) rfl (by norm_num)).1⟩

-- ------------------------------ amplitude curve ----------------------------

/-- raw of the gauss function in App.jsx: exp(-((x - 0.5)^2) / (2 sigma^2))
with sigma = 0.15; Math.exp is modelled by the real exponential. -/
noncomputable def gaussRaw (x : ℝ) : ℝ :=
  Real.exp (-((x - 1/2)^2) / (2 * (15/100)^2))

/-- floor of the gauss function in App.jsx: exp(-(0.5^2) / (2 sigma^2)). -/
noncomputable def gaussFloor : ℝ :=
  Real.exp (-((1/2:ℝ)^2) / (2 * (15/100)^2))

/-- gauss of App.jsx: max(0, (raw - floor) / (1 - floor)), the rescaled bump. -/
noncomputable def gauss (x : ℝ) : ℝ :=
  max 0 ((gaussRaw x - gaussFloor) / (1 - gaussFloor))

theorem gaussFloor_lt_one : gaussFloor < 1 := by
  have h : -((1/2:ℝ)^2) / (2 * (15/100)^2) < 0 := by norm_num
  calc gaussFloor = Real.exp (-((1/2:ℝ)^2) / (2 * (15/100)^2)) := rfl
    _ < Real.exp 0 := Real.exp_lt_exp.mpr h
    _ = 1 := Real.exp_zero

theorem gaussRaw_zero : gaussRaw 0 = gaussFloor := by
  unfold gaussRaw gaussFloor
  norm_num

theorem gaussRaw_one : gaussRaw 1 = gaussFloor := by
  unfold gaussRaw gaussFloor
  norm_num

theorem gaussRaw_half : gaussRaw (1/2) = 1 := by
  unfold gaussRaw
  norm_num

theorem gaussRaw_mono_left (s t : ℝ) (hst : s ≤ t) (ht : t ≤ 1/2) :
    gaussRaw s ≤ gaussRaw t := by
  unfold gaussRaw
  apply Real.exp_le_exp.mpr
  have hc : (0:ℝ) < 2 * (15/100)^2 := by norm_num
  exact (div_le_div_iff_of_pos_right hc).mpr (by nlinarith)

theorem gaussRaw_mono_right (s t : ℝ) (hs : 1/2 ≤ s) (hst : s ≤ t) :
    gaussRaw t ≤ gaussRaw s := by
  unfold gaussRaw
  apply Real.exp_le_exp.mpr
  have hc : (0:ℝ) < 2 * (15/100)^2 := by norm_num
  exact (div_le_div_iff_of_pos_right hc).mpr (by nlinarith)

-- --------------------------------- C5 --------------------------------------

/-- C5: the amplitude curve satisfies shape(0) = 0, shape(1) = 0,
shape(0.5) = 1, is non-negative on [0,1], is unimodal on [0,1] (non-decreasing
up to 0.5, non-increasing after), and equals the rescaled Gaussian
max(0, (g(t) - g(0)) / (g(0.5) - g(0))) with g(t) = exp(-(t-0.5)^2/(2*0.15^2))
for every t. -/
theorem gauss_shape_spec :
    gauss 0 = 0 ∧ gauss 1 = 0 ∧ gauss (1/2) = 1 ∧
    (∀ t : ℝ, 0 ≤ t → t ≤ 1 → 0 ≤ gauss t) ∧
    (∀ s t : ℝ, 0 ≤ s → s ≤ t → t ≤ 1/2 → gauss s ≤ gauss t) ∧
    (∀ s t : ℝ, 1/2 ≤ s → s ≤ t → t ≤ 1 → gauss t ≤ gauss s) ∧
    (∀ t : ℝ, gauss t
      = max 0 ((gaussRaw t - gaussRaw 0) / (gaussRaw (1/2) - gaussRaw 0))) := by
  have hden : (0:ℝ) < 1 - gaussFloor := by
    have := gaussFloor_lt_one
    linarith
  refine ⟨?_, ?_, ?_, ?_, ?_, ?_, ?_⟩
  · unfold gauss
    rw [gaussRaw_zero, sub_self, zero_div]
    exact max_self 0
  · unfold gauss
    rw [gaussRaw_one, sub_self, zero_div]
    exact max_self 0
  · unfold gauss
    rw [gaussRaw_half, div_self (ne_of_gt hden)]
    exact max_eq_right (by norm_num)
  · intro t _ _
    exact le_max_left 0 _
  · intro s t _ hst ht
    unfold gauss
    apply max_le_max (le_refl 0)
    apply (div_le_div_iff_of_pos_right hden).mpr
    have := gaussRaw_mono_left s t hst ht
    linarith
  · intro s t hs hst _
    unfold gauss
    apply max_le_max (le_refl 0)
    apply (div_le_div_iff_of_pos_right hden).mpr
    have := gaussRaw_mono_right s t hs hst
    linarith
  · intro t
    rw [gaussRaw_zero, gaussRaw_half]
    rfl

theorem gauss_shape_spec_witness :
    (0:ℝ) ≤ 1/2 ∧ (1/2:ℝ) ≤ 1 ∧ 0 ≤ gauss (1/2) :=
  ⟨by norm_num, by norm_num,
    gauss_shape_spec.2.2.2.1 (1/2) (by norm_num) (by norm_num)⟩

end ContractionClock
